import Mathlib

/-!
A shallow embedding of the shogi rules engine in `codex/app.js`.

Conventions of the translation:
* JS numbers used as board coordinates become `Int` (the slider walk and the
  direction vectors produce negative intermediate coordinates, exactly as in
  the source, which then fail `inBounds`).
* `board[r][c]` reads are modelled by `getCell`, which returns `none` outside
  the 9x9 range (the source only reads cells after an `inBounds` test, or at
  coordinates produced by the in-bounds generators).
* a JS hand object is a record of `Option Int` fields, one per piece letter;
  a missing key is `none` and the source's `hands[p][t] || 0` read is
  `Option.getD 0`.
* `deepClone` (a JSON round trip in the source over plain data) becomes a
  structural copy, and `makeMove` mutates only that copy, as in the source.
-/

namespace ShogiEngine

/-- The eight piece letters `'K','R','B','G','S','N','L','P'`. -/
inductive PieceT where
  | K | R | B | G | S | N | L | P
deriving DecidableEq, Repr

/-- Source `B = 'b'` (Sente) and `W = 'w'` (Gote). -/
inductive Side where
  | b | w
deriving DecidableEq, Repr

/-- An on-board piece `{t, p, pr}`. -/
structure Piece where
  t : PieceT
  p : Side
  pr : Bool
deriving DecidableEq, Repr

abbrev Cell := Option Piece

/-- The 9x9 grid, a list of rows of optional pieces. -/
abbrev Board := List (List Cell)

/-- Source `BOARD_SIZE`. -/
def BOARD_SIZE : Int := 9

/-- Source `TYPES = ['K','R','B','G','S','N','L','P']`. -/
def TYPES : List PieceT := [.K, .R, .B, .G, .S, .N, .L, .P]

/-- Membership in `PROMOTES_TO_GOLD = {'S','N','L','P'}`. -/
def PROMOTES_TO_GOLD : PieceT → Bool
  | .S | .N | .L | .P => true
  | _ => false

/-- Membership in `PROMOTABLE = {'R','B','S','N','L','P'}`. -/
def PROMOTABLE : PieceT → Bool
  | .R | .B | .S | .N | .L | .P => true
  | _ => false

/-- Source `DIRS[t]` for unpromoted `t` (oriented for Sente, row decreases). -/
def DIRS : PieceT → List (Int × Int)
  | .K => [(-1,-1),(-1,0),(-1,1),(0,-1),(0,1),(1,-1),(1,0),(1,1)]
  | .G => [(-1,-1),(-1,0),(-1,1),(0,-1),(0,1),(1,0)]
  | .S => [(-1,-1),(-1,0),(-1,1),(1,-1),(1,1)]
  | .N => [(-2,-1),(-2,1)]
  | .L => [(-1,0)]
  | .P => [(-1,0)]
  | .R => [(-1,0),(1,0),(0,-1),(0,1)]
  | .B => [(-1,-1),(-1,1),(1,-1),(1,1)]

/-- Membership of a base letter in `SLIDERS = {'R','B','L','+R','+B'}` (a
piece's `t` field is always a base letter, so the `'+R'`,`'+B'` entries of the
JS set are unreachable through `piece.t`). -/
def SLIDERS : PieceT → Bool
  | .R | .B | .L => true
  | _ => false

/-- Source `inBounds(r,c)`. -/
def inBounds (r c : Int) : Bool :=
  0 ≤ r && r < BOARD_SIZE && 0 ≤ c && c < BOARD_SIZE

/-- Source `enemy(of)`. -/
def enemy : Side → Side
  | .b => .w
  | .w => .b

/-- Source `board[r][c]` at in-range coordinates (the source reads cells only after
an `inBounds` check or at generator-produced coordinates). -/
def getCell (board : Board) (r c : Int) : Cell :=
  if inBounds r c then (board.getD r.toNat []).getD c.toNat none else none

/-- Source `board[r][c] = v` at in-range coordinates. -/
def setCell (board : Board) (r c : Int) (v : Cell) : Board :=
  if inBounds r c then board.set r.toNat ((board.getD r.toNat []).set c.toNat v) else board

/-- Source `rotateFor(player, dr, dc)`. -/
def rotateFor (player : Side) (d : Int × Int) : Int × Int :=
  if player = Side.b then d else (-d.1, -d.2)

/-- Source `isPromotionZone(player, row)`. -/
def isPromotionZone (player : Side) (row : Int) : Bool :=
  if player = Side.b then decide (row ≤ 2) else decide (row ≥ 6)

/-- Source `mustPromote(piece, toRow)`. -/
def mustPromote (piece : Piece) (toRow : Int) : Bool :=
  if piece.t = .P ∨ piece.t = .L then
    decide ((piece.p = .b ∧ toRow = 0) ∨ (piece.p = .w ∧ toRow = 8))
  else if piece.t = .N then
    decide ((piece.p = .b ∧ toRow ≤ 1) ∨ (piece.p = .w ∧ toRow ≥ 7))
  else false

/-- Source `promotePiece(piece)`. -/
def promotePiece (piece : Piece) : Piece :=
  if PROMOTABLE piece.t = false then piece
  else if piece.t = .R then { piece with pr := true }
  else if piece.t = .B then { piece with pr := true }
  else if PROMOTES_TO_GOLD piece.t then { piece with pr := true }
  else piece

/-- Source `demote(piece)`: on capture, demote and change owner. -/
def demote (piece : Piece) : Piece :=
  { t := piece.t, p := enemy piece.p, pr := false }

/-- Source `dirsFor(piece)` (`goldLikeDirs()` is `DIRS.G`). -/
def dirsFor (piece : Piece) : List (Int × Int) :=
  if piece.pr then
    match piece.t with
    | .R => DIRS .R
    | .B => DIRS .B
    | _ => DIRS .G
  else DIRS piece.t

/-- Source `isSlider(piece)`. -/
def isSlider (piece : Piece) : Bool :=
  if piece.pr ∧ (piece.t = .R ∨ piece.t = .B) then true else SLIDERS piece.t

/-- A hand object: one optional count per piece letter, a missing key is
`none`. -/
structure Hand where
  hK : Option Int := none
  hR : Option Int := none
  hB : Option Int := none
  hG : Option Int := none
  hS : Option Int := none
  hN : Option Int := none
  hL : Option Int := none
  hP : Option Int := none
deriving DecidableEq, Repr

/-- The raw field `hand[t]` (present value or missing). -/
def Hand.field (h : Hand) : PieceT → Option Int
  | .K => h.hK
  | .R => h.hR
  | .B => h.hB
  | .G => h.hG
  | .S => h.hS
  | .N => h.hN
  | .L => h.hL
  | .P => h.hP

/-- Source `hand[t] = v`. -/
def Hand.setField (h : Hand) (t : PieceT) (v : Int) : Hand :=
  match t with
  | .K => { h with hK := some v }
  | .R => { h with hR := some v }
  | .B => { h with hB := some v }
  | .G => { h with hG := some v }
  | .S => { h with hS := some v }
  | .N => { h with hN := some v }
  | .L => { h with hL := some v }
  | .P => { h with hP := some v }

/-- The two hand objects `hands = {b: …, w: …}`. -/
structure Hands where
  hb : Hand
  hw : Hand
deriving DecidableEq, Repr

/-- Source `hands[side]`. -/
def Hands.side (hs : Hands) : Side → Hand
  | .b => hs.hb
  | .w => hs.hw

/-- Source `hands[side][t] || 0`. -/
def handGet (hs : Hands) (sd : Side) (t : PieceT) : Int :=
  ((hs.side sd).field t).getD 0

/-- Source `hands[side][t] = v`. -/
def handsSet (hs : Hands) (sd : Side) (t : PieceT) (v : Int) : Hands :=
  match sd with
  | .b => { hs with hb := hs.hb.setField t v }
  | .w => { hs with hw := hs.hw.setField t v }

/-- The game state `{board, hands, turn}`. -/
structure Position where
  board : Board
  hands : Hands
  turn : Side
deriving DecidableEq, Repr

/-- Source `startPosition()`. -/
def startPosition : Board :=
  let pc : PieceT → Side → Cell := fun t p => some ⟨t, p, false⟩
  [ [pc .L .w, pc .N .w, pc .S .w, pc .G .w, pc .K .w, pc .G .w, pc .S .w, pc .N .w, pc .L .w],
    [none, pc .R .w, none, none, none, none, none, pc .B .w, none],
    [pc .P .w, pc .P .w, pc .P .w, pc .P .w, pc .P .w, pc .P .w, pc .P .w, pc .P .w, pc .P .w],
    [none, none, none, none, none, none, none, none, none],
    [none, none, none, none, none, none, none, none, none],
    [none, none, none, none, none, none, none, none, none],
    [pc .P .b, pc .P .b, pc .P .b, pc .P .b, pc .P .b, pc .P .b, pc .P .b, pc .P .b, pc .P .b],
    [none, pc .B .b, none, none, none, none, none, pc .R .b, none],
    [pc .L .b, pc .N .b, pc .S .b, pc .G .b, pc .K .b, pc .G .b, pc .S .b, pc .N .b, pc .L .b] ]

/-- Source `initialState()`: starting board, empty hand objects, Sente to move. -/
def initialState : Position :=
  { board := startPosition, hands := ⟨{}, {}⟩, turn := .b }

/-- A move object: either `{from, to, promote}` or `{drop:true, dropType, to}`. -/
inductive Move where
  | move (fr fc tr tc : Int) (promote : Bool)
  | drop (t : PieceT) (r c : Int)
deriving DecidableEq, Repr

/-- Whether the move object carries `drop:true`. -/
def Move.isDrop : Move → Bool
  | .drop _ _ _ => true
  | .move _ _ _ _ _ => false

/-- The `promote` flag (`undefined`, i.e. `false`, on drops). -/
def Move.promoteFlag : Move → Bool
  | .drop _ _ _ => false
  | .move _ _ _ _ p => p

/-- One probe of `tryPush` for a stepper: emit the target square iff it is in
bounds and empty or enemy-occupied. -/
def stepDests (board : Board) (pl : Side) (r c dr dc : Int) : List (Int × Int) :=
  let rr := r + dr
  let cc := c + dc
  if inBounds rr cc then
    match getCell board rr cc with
    | none => [(rr, cc)]
    | some target => if target.p ≠ pl then [(rr, cc)] else []
  else []

/-- The slider `while(true){ if(!tryPush(rr,cc)) break; rr+=dr; cc+=dc; }`
walk, starting at the already-advanced square `(r+dr, c+dc)`; the fuel only
bounds the loop, which leaves the 9x9 board after at most 8 steps. -/
def slideDests (board : Board) (pl : Side) : Int → Int → Int → Int → Nat → List (Int × Int)
  | _, _, _, _, 0 => []
  | r, c, dr, dc, fuel + 1 =>
    let rr := r + dr
    let cc := c + dc
    if inBounds rr cc then
      match getCell board rr cc with
      | none => (rr, cc) :: slideDests board pl rr cc dr dc fuel
      | some target => if target.p ≠ pl then [(rr, cc)] else []
    else []

/-- All raw destination squares pushed by `genPseudoMoves` before the
promotion expansion: the per-direction slider/stepper moves, then the extra
king-step squares of `+R` and `+B`. -/
def rawDests (board : Board) (piece : Piece) (r c : Int) : List (Int × Int) :=
  let baseDirs := (dirsFor piece).map (rotateFor piece.p)
  let main := baseDirs.flatMap (fun d =>
    if isSlider piece then slideDests board piece.p r c d.1 d.2 9
    else stepDests board piece.p r c d.1 d.2)
  let extraR :=
    if piece.pr = true ∧ piece.t = .R then
      ([((-1:Int),(-1:Int)),(-1,1),(1,-1),(1,1)].map (rotateFor piece.p)).flatMap
        (fun d => stepDests board piece.p r c d.1 d.2)
    else []
  let extraB :=
    if piece.pr = true ∧ piece.t = .B then
      ([((-1:Int),(0:Int)),(1,0),(0,-1),(0,1)].map (rotateFor piece.p)).flatMap
        (fun d => stepDests board piece.p r c d.1 d.2)
    else []
  main ++ extraR ++ extraB

/-- Source `genPseudoMoves(board, r, c)`: raw destinations, then the promotion-choice
expansion (forced: only `promote:true`; optional: both; otherwise only
`promote:false`). -/
def genPseudoMoves (board : Board) (r c : Int) : List Move :=
  match getCell board r c with
  | none => []
  | some piece =>
    (rawDests board piece r c).flatMap (fun dst =>
      let tr := dst.1
      let tc := dst.2
      if PROMOTABLE piece.t then
        let enters := isPromotionZone piece.p tr || isPromotionZone piece.p r
        let forced := mustPromote piece tr
        if forced then [Move.move r c tr tc true]
        else if enters then [Move.move r c tr tc true, Move.move r c tr tc false]
        else [Move.move r c tr tc false]
      else [Move.move r c tr tc false])

/-- The 81 squares in the row-major order of the source's nested loops. -/
def allSquares : List (Int × Int) :=
  (List.range 9).flatMap (fun r => (List.range 9).map (fun c => (Int.ofNat r, Int.ofNat c)))

/-- Source `findKing(board, player)`: first square (row-major) holding `player`'s
King, else `null`. -/
def findKing (board : Board) (player : Side) : Option (Int × Int) :=
  allSquares.find? (fun sq =>
    match getCell board sq.1 sq.2 with
    | some pc => decide (pc.p = player ∧ pc.t = .K)
    | none => false)

/-- Source `attacksSquare(board, attacker, tr, tc)`. -/
def attacksSquare (board : Board) (attacker : Side) (tr tc : Int) : Bool :=
  allSquares.any (fun sq =>
    match getCell board sq.1 sq.2 with
    | some pc =>
      if pc.p = attacker then
        (genPseudoMoves board sq.1 sq.2).any (fun m =>
          match m with
          | .move _ _ mr mc _ => decide (mr = tr ∧ mc = tc)
          | .drop _ _ _ => false)
      else false
    | none => false)

/-- Source `isCheck(board, player)`: `false` when the king is absent (the source
returns `false`, it does not throw). -/
def isCheck (board : Board) (player : Side) : Bool :=
  match findKing board player with
  | none => false
  | some kpos => attacksSquare board (enemy player) kpos.1 kpos.2

/-- Source `deepClone` of a Position (a JSON round trip over plain data in the
source): a structural copy of the board grid, the hand objects and the turn. -/
def deepClone (state : Position) : Position :=
  { board := state.board.map (fun row => row.map (fun cell => cell.map (fun pc => ⟨pc.t, pc.p, pc.pr⟩))),
    hands := ⟨⟨state.hands.hb.hK, state.hands.hb.hR, state.hands.hb.hB, state.hands.hb.hG,
               state.hands.hb.hS, state.hands.hb.hN, state.hands.hb.hL, state.hands.hb.hP⟩,
              ⟨state.hands.hw.hK, state.hands.hw.hR, state.hands.hw.hB, state.hands.hw.hG,
               state.hands.hw.hS, state.hands.hw.hN, state.hands.hw.hL, state.hands.hw.hP⟩⟩,
    turn := state.turn }

/-- Source `makeMove(state, move)`: clone the state, then mutate the clone.  On a
board move whose `from` square is empty the source spreads `null` into a
degenerate field-less object; no generated move does that, and the model
writes an empty cell there. -/
def makeMove (state : Position) (move : Move) : Position :=
  let ns := deepClone state
  match move with
  | .drop t r c =>
    { board := setCell ns.board r c (some ⟨t, ns.turn, false⟩),
      hands := handsSet ns.hands ns.turn t (handGet ns.hands ns.turn t - 1),
      turn := enemy ns.turn }
  | .move fr fc tr tc promote =>
    let piece := getCell ns.board fr fc
    let moving := piece.map (fun pc => ⟨pc.t, pc.p, pc.pr⟩)
    let captured := getCell ns.board tr tc
    let hands1 :=
      match captured with
      | some cap =>
        let d := demote cap
        handsSet ns.hands ns.turn d.t (handGet ns.hands ns.turn d.t + 1)
      | none => ns.hands
    let moving1 := if promote then moving.map promotePiece else moving
    let board1 := setCell ns.board tr tc moving1
    let board2 := setCell board1 fr fc none
    { board := board2, hands := hands1, turn := enemy ns.turn }

/-- Source `hasUnpromotedPawnOnFile(board, player, file)`. -/
def hasUnpromotedPawnOnFile (board : Board) (player : Side) (file : Int) : Bool :=
  (List.range 9).any (fun r =>
    match getCell board (r : Int) file with
    | some pc => decide (pc.p = player ∧ pc.t = .P ∧ pc.pr = false)
    | none => false)

/-- Source `genDrops(state)`: for each held type with a non-zero count and each empty
square, emit the drop unless one of the `continue`d piece-specific
restrictions fires (nifu or last-rank pawn/lance, last-two-ranks knight). -/
def genDrops (state : Position) : List Move :=
  TYPES.flatMap (fun t =>
    let count := handGet state.hands state.turn t
    if count = 0 then []
    else allSquares.flatMap (fun sq =>
      let r := sq.1
      let c := sq.2
      if (getCell state.board r c).isSome then []
      else if (t = PieceT.P ∧ hasUnpromotedPawnOnFile state.board state.turn c = true)
        ∨ (t = PieceT.P ∧ ((state.turn = Side.b ∧ r = 0) ∨ (state.turn = Side.w ∧ r = 8)))
        ∨ (t = PieceT.L ∧ ((state.turn = Side.b ∧ r = 0) ∨ (state.turn = Side.w ∧ r = 8)))
        ∨ (t = PieceT.N ∧ ((state.turn = Side.b ∧ r ≤ 1) ∨ (state.turn = Side.w ∧ r ≥ 7)))
      then []
      else [Move.drop t r c]))

/-- Source `genAllPseudo(state)`: board moves of the side to move, then drops. -/
def genAllPseudo (state : Position) : List Move :=
  (allSquares.flatMap (fun sq =>
    match getCell state.board sq.1 sq.2 with
    | some pc => if pc.p = state.turn then genPseudoMoves state.board sq.1 sq.2 else []
    | none => [])) ++ genDrops state

/-- Source `legalMoves(state)`: pseudo-moves whose successor leaves the mover's own
king unattacked. -/
def legalMoves (state : Position) : List Move :=
  (genAllPseudo state).filter (fun m =>
    let ns := makeMove state m
    !isCheck ns.board (enemy ns.turn))

/-! ### Basic lemmas about the embedded operations -/

theorem enemy_enemy (s : Side) : enemy (enemy s) = s := by
  cases s <;> rfl

theorem deepClone_eq (s : Position) : deepClone s = s := by
  cases s with
  | mk board hands turn =>
    cases hands with
    | mk hb hw =>
      simp only [deepClone]
      rw [show (fun pc : Piece => (⟨pc.t, pc.p, pc.pr⟩ : Piece)) = id from rfl]
      simp

theorem makeMove_turn (state : Position) (m : Move) :
    (makeMove state m).turn = enemy state.turn := by
  cases m <;> simp [makeMove, deepClone_eq]

/-- Reading a hand entry just written. -/
theorem Hand.field_setField (h : Hand) (t u : PieceT) (v : Int) :
    (h.setField t v).field u = if u = t then some v else h.field u := by
  cases t <;> cases u <;> rfl

theorem handGet_handsSet_eq (hs : Hands) (sd : Side) (t : PieceT) (v : Int) :
    handGet (handsSet hs sd t v) sd t = v := by
  cases sd <;> simp [handGet, handsSet, Hands.side, Hand.field_setField]

theorem handGet_handsSet_ne (hs : Hands) (sd sd' : Side) (t t' : PieceT) (v : Int)
    (h : ¬(sd' = sd ∧ t' = t)) :
    handGet (handsSet hs sd t v) sd' t' = handGet hs sd' t' := by
  cases sd <;> cases sd' <;>
    simp_all [handGet, handsSet, Hands.side, Hand.field_setField]

/-- A 9x9 grid: nine rows, each of length nine. -/
def boardWF (b : Board) : Prop :=
  b.length = 9 ∧ ∀ i : Nat, i < 9 → (b.getD i []).length = 9

instance : DecidablePred boardWF := fun b => by
  unfold boardWF; infer_instance

theorem getCell_eq_getD {b : Board} {r c : Int} (h : inBounds r c = true) :
    getCell b r c = (b.getD r.toNat []).getD c.toNat none := by
  simp [getCell, h]

theorem inBounds_toNat_lt {r c : Int} (h : inBounds r c = true) :
    r.toNat < 9 ∧ c.toNat < 9 := by
  simp only [inBounds, BOARD_SIZE, Bool.and_eq_true, decide_eq_true_eq] at h
  omega

/-- Coordinates with a live cell are in bounds. -/
theorem inBounds_of_getCell_isSome {b : Board} {r c : Int}
    (h : (getCell b r c).isSome = true) : inBounds r c = true := by
  by_contra hb
  simp only [Bool.not_eq_true] at hb
  simp [getCell, hb] at h

/-- Source `List.getD` after `List.set`, in one equation. -/
theorem getD_set_elem {α : Type} (l : List α) (i j : Nat) (v : α) (d : α) :
    (l.set i v).getD j d = if i = j ∧ i < l.length then v else l.getD j d := by
  simp only [List.getD_eq_getElem?_getD, List.getElem?_set]
  by_cases h : i = j
  · subst h
    by_cases hl : i < l.length
    · simp [hl]
    · simp [hl, List.getElem?_eq_none (Nat.le_of_not_lt hl)]
  · simp [h]

/-- A cell write either leaves a square unchanged or stores the new value. -/
theorem getCell_setCell_cases (b : Board) (r c r' c' : Int) (v : Cell) :
    getCell (setCell b r c v) r' c' = getCell b r' c' ∨
      getCell (setCell b r c v) r' c' = v := by
  by_cases hrc : inBounds r c = true
  · by_cases hrc' : inBounds r' c' = true
    · rw [getCell_eq_getD hrc', getCell_eq_getD hrc']
      unfold setCell
      rw [if_pos hrc]
      rw [getD_set_elem]
      by_cases h1 : r.toNat = r'.toNat ∧ r.toNat < b.length
      · rw [if_pos h1, getD_set_elem]
        by_cases h2 : c.toNat = c'.toNat ∧ c.toNat < (b.getD r.toNat []).length
        · rw [if_pos h2]
          right; rfl
        · rw [if_neg h2, h1.1]
          left; rfl
      · rw [if_neg h1]
        left; rfl
    · rw [Bool.not_eq_true] at hrc'
      left; simp [getCell, hrc']
  · rw [Bool.not_eq_true] at hrc
    left
    simp [setCell, hrc]

/-- A cell write to a different square leaves the square unchanged. -/
theorem getCell_setCell_ne (b : Board) (r c r' c' : Int) (v : Cell)
    (h : ¬(r' = r ∧ c' = c)) :
    getCell (setCell b r c v) r' c' = getCell b r' c' := by
  by_cases hrc : inBounds r c = true
  · by_cases hrc' : inBounds r' c' = true
    · rw [getCell_eq_getD hrc', getCell_eq_getD hrc']
      unfold setCell
      rw [if_pos hrc]
      rw [getD_set_elem]
      have hB := inBounds_toNat_lt hrc
      have hB' := inBounds_toNat_lt hrc'
      simp only [inBounds, BOARD_SIZE, Bool.and_eq_true, decide_eq_true_eq] at hrc hrc'
      by_cases h1 : r.toNat = r'.toNat ∧ r.toNat < b.length
      · have hr : r = r' := by omega
        have hc : ¬(c.toNat = c'.toNat ∧ c.toNat < (b.getD r.toNat []).length) := by
          have : c ≠ c' := fun hcc => h ⟨hr.symm, hcc.symm⟩
          have : c.toNat ≠ c'.toNat := by omega
          tauto
        rw [if_pos h1, getD_set_elem, if_neg hc, h1.1]
      · rw [if_neg h1]
    · rw [Bool.not_eq_true] at hrc'
      simp [getCell, hrc']
  · rw [Bool.not_eq_true] at hrc
    simp [setCell, hrc]

/-- A cell write lands on the written square when it is in bounds on a
well-formed grid. -/
theorem getCell_setCell_eq (b : Board) (r c : Int) (v : Cell)
    (hWF : boardWF b) (hb : inBounds r c = true) :
    getCell (setCell b r c v) r c = v := by
  obtain ⟨hlen, hrow⟩ := hWF
  have hlt := inBounds_toNat_lt hb
  rw [getCell_eq_getD hb]
  unfold setCell
  rw [if_pos hb]
  have h1 : r.toNat = r.toNat ∧ r.toNat < b.length := ⟨rfl, by omega⟩
  have h2 : c.toNat = c.toNat ∧ c.toNat < (b.getD r.toNat []).length := by
    refine ⟨rfl, ?_⟩
    rw [hrow r.toNat hlt.1]
    omega
  rw [getD_set_elem, if_pos h1, getD_set_elem, if_pos h2]

/-- Cell writes preserve the grid shape. -/
theorem boardWF_setCell (b : Board) (r c : Int) (v : Cell) (hWF : boardWF b) :
    boardWF (setCell b r c v) := by
  obtain ⟨hlen, hrow⟩ := hWF
  by_cases hb : inBounds r c = true
  · unfold setCell
    rw [if_pos hb]
    refine ⟨by simp [hlen], fun i hi => ?_⟩
    rw [getD_set_elem]
    by_cases hr : r.toNat = i ∧ r.toNat < b.length
    · rw [if_pos hr, List.length_set]
      exact hrow r.toNat (by omega)
    · rw [if_neg hr]
      exact hrow i hi
  · unfold setCell
    rw [if_neg (by simp [hb])]
    exact ⟨hlen, hrow⟩

/-! ### Piece counting -/

/-- Number of occupied squares of the grid. -/
def boardCount (b : Board) : Nat :=
  (b.map (fun row => row.countP (fun cell => cell.isSome))).sum

/-- Sum of every per-type count over both hand objects. -/
def handTotal (hs : Hands) : Int :=
  (TYPES.map (handGet hs .b)).sum + (TYPES.map (handGet hs .w)).sum

/-- Board pieces plus hand pieces of a Position. -/
def totalCount (s : Position) : Int :=
  (boardCount s.board : Int) + handTotal s.hands

theorem countP_set_add (p : Cell → Bool) (l : List Cell) (j : Nat) (v : Cell)
    (hj : j < l.length) :
    (l.set j v).countP p + (if p (l.getD j none) then 1 else 0) =
      l.countP p + (if p v then 1 else 0) := by
  rw [List.countP_set p l j v hj]
  have hle := List.boole_getElem_le_countP p l j hj
  rw [List.getD_eq_getElem?_getD, List.getElem?_eq_getElem hj, Option.getD_some]
  omega

theorem sum_map_set (f : List Cell → Nat) (b : List (List Cell)) (i : Nat)
    (row : List Cell) (hi : i < b.length) :
    ((b.set i row).map f).sum + f (b.getD i []) = (b.map f).sum + f row := by
  induction b generalizing i with
  | nil => simp at hi
  | cons x xs ih =>
    cases i with
    | zero =>
      simp only [List.set_cons_zero, List.map_cons, List.sum_cons, List.getD_cons_zero]
      omega
    | succ n =>
      simp only [List.set_cons_succ, List.map_cons, List.sum_cons, List.getD_cons_succ]
      have := ih n (by simpa using hi)
      omega

/-- How a cell write changes the board piece count. -/
theorem boardCount_setCell (b : Board) (r c : Int) (v : Cell)
    (hWF : boardWF b) (hb : inBounds r c = true) :
    boardCount (setCell b r c v) + (if (getCell b r c).isSome then 1 else 0) =
      boardCount b + (if v.isSome then 1 else 0) := by
  obtain ⟨hlen, hrow⟩ := hWF
  have hlt := inBounds_toNat_lt hb
  have h1 : r.toNat < b.length := by omega
  have h2 : c.toNat < (b.getD r.toNat []).length := by
    rw [hrow r.toNat hlt.1]; omega
  unfold boardCount setCell
  rw [if_pos hb, getCell_eq_getD hb]
  have hs := sum_map_set (fun row => row.countP (fun cell => cell.isSome)) b r.toNat
    ((b.getD r.toNat []).set c.toNat v) h1
  have hc := countP_set_add (fun cell => cell.isSome) (b.getD r.toNat []) c.toNat v h2
  simp only [] at hs hc
  omega

/-- How a hand write changes the total hand count. -/
theorem handTotal_handsSet (hs : Hands) (sd : Side) (t : PieceT) (v : Int) :
    handTotal (handsSet hs sd t v) = handTotal hs + v - handGet hs sd t := by
  cases sd <;> cases t <;>
    simp [handTotal, TYPES, handGet, handsSet, Hands.side, Hand.setField, Hand.field] <;>
    ring

/-! ### Shape and membership facts about the move generators -/

/-- Every square emitted by a stepper probe is in bounds and empty or
enemy-occupied. -/
theorem mem_stepDests {board : Board} {pl : Side} {r c dr dc tr tc : Int}
    (h : (tr, tc) ∈ stepDests board pl r c dr dc) :
    inBounds tr tc = true ∧
      (getCell board tr tc = none ∨ ∃ q, getCell board tr tc = some q ∧ q.p ≠ pl) := by
  simp only [stepDests] at h
  by_cases hb : inBounds (r + dr) (c + dc) = true
  · rw [if_pos hb] at h
    cases hcell : getCell board (r + dr) (c + dc) with
    | none =>
      rw [hcell] at h
      simp only [List.mem_singleton, Prod.mk.injEq] at h
      obtain ⟨h1, h2⟩ := h
      subst h1; subst h2
      exact ⟨hb, Or.inl hcell⟩
    | some q =>
      rw [hcell] at h
      replace h : (tr, tc) ∈ (if q.p ≠ pl then [(r + dr, c + dc)] else ([] : List (Int × Int))) := h
      by_cases hq : q.p ≠ pl
      · rw [if_pos hq] at h
        simp only [List.mem_singleton, Prod.mk.injEq] at h
        obtain ⟨h1, h2⟩ := h
        subst h1; subst h2
        exact ⟨hb, Or.inr ⟨q, hcell, hq⟩⟩
      · rw [if_neg hq] at h
        simp at h
  · rw [if_neg hb] at h
    simp at h

/-- Every square emitted by a slider walk is in bounds and empty or
enemy-occupied. -/
theorem mem_slideDests {board : Board} {pl : Side} {dr dc tr tc : Int} :
    ∀ (fuel : Nat) (r c : Int), (tr, tc) ∈ slideDests board pl r c dr dc fuel →
      inBounds tr tc = true ∧
        (getCell board tr tc = none ∨ ∃ q, getCell board tr tc = some q ∧ q.p ≠ pl) := by
  intro fuel
  induction fuel with
  | zero => intro r c h; simp [slideDests] at h
  | succ n ih =>
    intro r c h
    simp only [slideDests] at h
    by_cases hb : inBounds (r + dr) (c + dc) = true
    · rw [if_pos hb] at h
      cases hcell : getCell board (r + dr) (c + dc) with
      | none =>
        rw [hcell] at h
        rcases List.mem_cons.mp h with heq | htail
        · obtain ⟨h1, h2⟩ := Prod.mk.injEq .. ▸ heq
          subst h1; subst h2
          exact ⟨hb, Or.inl hcell⟩
        · exact ih _ _ htail
      | some q =>
        rw [hcell] at h
        replace h : (tr, tc) ∈ (if q.p ≠ pl then [(r + dr, c + dc)] else ([] : List (Int × Int))) := h
        by_cases hq : q.p ≠ pl
        · rw [if_pos hq] at h
          simp only [List.mem_singleton, Prod.mk.injEq] at h
          obtain ⟨h1, h2⟩ := h
          subst h1; subst h2
          exact ⟨hb, Or.inr ⟨q, hcell, hq⟩⟩
        · rw [if_neg hq] at h
          simp at h
    · rw [if_neg hb] at h
      simp at h

/-- Every raw destination of a piece is in bounds and empty or
enemy-occupied. -/
theorem mem_rawDests {board : Board} {piece : Piece} {r c tr tc : Int}
    (h : (tr, tc) ∈ rawDests board piece r c) :
    inBounds tr tc = true ∧
      (getCell board tr tc = none ∨ ∃ q, getCell board tr tc = some q ∧ q.p ≠ piece.p) := by
  simp only [rawDests] at h
  rcases List.mem_append.mp h with h1 | h2
  · rcases List.mem_append.mp h1 with hmain | hextraR
    · obtain ⟨d, _, hd⟩ := List.mem_flatMap.mp hmain
      by_cases hs : isSlider piece = true
      · rw [if_pos hs] at hd
        exact mem_slideDests 9 r c hd
      · rw [if_neg hs] at hd
        exact mem_stepDests hd
    · by_cases hR : piece.pr = true ∧ piece.t = .R
      · rw [if_pos hR] at hextraR
        obtain ⟨d, _, hd⟩ := List.mem_flatMap.mp hextraR
        exact mem_stepDests hd
      · rw [if_neg hR] at hextraR
        simp at hextraR
  · by_cases hB : piece.pr = true ∧ piece.t = .B
    · rw [if_pos hB] at h2
      obtain ⟨d, _, hd⟩ := List.mem_flatMap.mp h2
      exact mem_stepDests hd
    · rw [if_neg hB] at h2
      simp at h2

/-- A piece that is not promotion-eligible is never force-promoted. -/
theorem mustPromote_of_not_promotable {piece : Piece} {toRow : Int}
    (h : PROMOTABLE piece.t = false) : mustPromote piece toRow = false := by
  unfold mustPromote
  cases hp : piece.t <;> simp_all [PROMOTABLE]

/-- Characterization of a generated board move: the source square holds the
moving piece, the destination is a raw destination, a forced promotion
carries `promote=true`, and a promotion-ineligible piece carries
`promote=false`. -/
theorem mem_genPseudoMoves {board : Board} {r c : Int} {m : Move}
    (h : m ∈ genPseudoMoves board r c) :
    ∃ piece tr tc prm, getCell board r c = some piece ∧
      m = Move.move r c tr tc prm ∧
      (tr, tc) ∈ rawDests board piece r c ∧
      (mustPromote piece tr = true → prm = true) ∧
      (PROMOTABLE piece.t = false → prm = false) := by
  unfold genPseudoMoves at h
  cases hcell : getCell board r c with
  | none => rw [hcell] at h; simp at h
  | some piece =>
    rw [hcell] at h
    obtain ⟨dst, hdst, hm⟩ := List.mem_flatMap.mp h
    by_cases hprom : PROMOTABLE piece.t = true
    · rw [if_pos hprom] at hm
      simp only [] at hm
      by_cases hforced : mustPromote piece dst.1 = true
      · rw [if_pos hforced] at hm
        simp only [List.mem_singleton] at hm
        exact ⟨piece, dst.1, dst.2, true, rfl, hm, hdst,
          fun _ => rfl, fun hc => by rw [hprom] at hc; cases hc⟩
      · rw [if_neg hforced] at hm
        by_cases henters : (isPromotionZone piece.p dst.1 || isPromotionZone piece.p r) = true
        · rw [if_pos henters] at hm
          rcases List.mem_cons.mp hm with h1 | h1
          · exact ⟨piece, dst.1, dst.2, true, rfl, h1, hdst,
              fun _ => rfl, fun hc => by rw [hprom] at hc; cases hc⟩
          · simp only [List.mem_singleton] at h1
            exact ⟨piece, dst.1, dst.2, false, rfl, h1, hdst,
              fun hf => absurd hf hforced, fun _ => rfl⟩
        · rw [if_neg henters] at hm
          simp only [List.mem_singleton] at hm
          exact ⟨piece, dst.1, dst.2, false, rfl, hm, hdst,
            fun hf => absurd hf hforced, fun _ => rfl⟩
    · rw [if_neg hprom] at hm
      simp only [List.mem_singleton] at hm
      rw [Bool.not_eq_true] at hprom
      exact ⟨piece, dst.1, dst.2, false, rfl, hm, hdst,
        fun hf => absurd hf (by rw [mustPromote_of_not_promotable hprom]; simp),
        fun _ => rfl⟩

/-- Every enumerated square is in bounds. -/
theorem mem_allSquares_inBounds {sq : Int × Int} (h : sq ∈ allSquares) :
    inBounds sq.1 sq.2 = true := by
  unfold allSquares at h
  obtain ⟨r, hr, h2⟩ := List.mem_flatMap.mp h
  obtain ⟨c, hc, h3⟩ := List.mem_map.mp h2
  subst h3
  simp only [List.mem_range] at hr hc
  show inBounds (Int.ofNat r) (Int.ofNat c) = true
  simp only [inBounds, BOARD_SIZE, Bool.and_eq_true, decide_eq_true_eq, Int.ofNat_eq_coe]
  omega

/-- Characterization of a generated drop: non-zero hand count, empty target
square, and none of the piece-specific restrictions fires. -/
theorem mem_genDrops {state : Position} {m : Move}
    (h : m ∈ genDrops state) :
    ∃ t r c, m = Move.drop t r c ∧ inBounds r c = true ∧
      handGet state.hands state.turn t ≠ 0 ∧
      getCell state.board r c = none ∧
      ¬((t = PieceT.P ∧ hasUnpromotedPawnOnFile state.board state.turn c = true)
        ∨ (t = PieceT.P ∧ ((state.turn = Side.b ∧ r = 0) ∨ (state.turn = Side.w ∧ r = 8)))
        ∨ (t = PieceT.L ∧ ((state.turn = Side.b ∧ r = 0) ∨ (state.turn = Side.w ∧ r = 8)))
        ∨ (t = PieceT.N ∧ ((state.turn = Side.b ∧ r ≤ 1) ∨ (state.turn = Side.w ∧ r ≥ 7)))) := by
  unfold genDrops at h
  obtain ⟨t, _, h2⟩ := List.mem_flatMap.mp h
  by_cases hcount : handGet state.hands state.turn t = 0
  · rw [if_pos hcount] at h2
    simp at h2
  · rw [if_neg hcount] at h2
    obtain ⟨sq, hsq, h3⟩ := List.mem_flatMap.mp h2
    simp only [] at h3
    by_cases hocc : (getCell state.board sq.1 sq.2).isSome = true
    · rw [if_pos hocc] at h3
      simp at h3
    · rw [if_neg hocc] at h3
      by_cases hrestr : (t = PieceT.P ∧ hasUnpromotedPawnOnFile state.board state.turn sq.2 = true)
          ∨ (t = PieceT.P ∧ ((state.turn = Side.b ∧ sq.1 = 0) ∨ (state.turn = Side.w ∧ sq.1 = 8)))
          ∨ (t = PieceT.L ∧ ((state.turn = Side.b ∧ sq.1 = 0) ∨ (state.turn = Side.w ∧ sq.1 = 8)))
          ∨ (t = PieceT.N ∧ ((state.turn = Side.b ∧ sq.1 ≤ 1) ∨ (state.turn = Side.w ∧ sq.1 ≥ 7)))
      · rw [if_pos hrestr] at h3
        simp at h3
      · rw [if_neg hrestr] at h3
        simp only [List.mem_singleton] at h3
        exact ⟨t, sq.1, sq.2, h3, mem_allSquares_inBounds hsq, hcount,
          Option.not_isSome_iff_eq_none.mp (by simpa using hocc), hrestr⟩

/-- A pseudo-move is a board move of an own piece or a generated drop. -/
theorem mem_genAllPseudo_cases {state : Position} {m : Move}
    (h : m ∈ genAllPseudo state) :
    (∃ r c piece, getCell state.board r c = some piece ∧ piece.p = state.turn ∧
      m ∈ genPseudoMoves state.board r c) ∨ m ∈ genDrops state := by
  unfold genAllPseudo at h
  rcases List.mem_append.mp h with h1 | h2
  · left
    obtain ⟨sq, _, hm⟩ := List.mem_flatMap.mp h1
    cases hcell : getCell state.board sq.1 sq.2 with
    | none => rw [hcell] at hm; simp at hm
    | some pc =>
      rw [hcell] at hm
      replace hm : m ∈ (if pc.p = state.turn
          then genPseudoMoves state.board sq.1 sq.2 else []) := hm
      by_cases hp : pc.p = state.turn
      · rw [if_pos hp] at hm
        exact ⟨sq.1, sq.2, pc, hcell, hp, hm⟩
      · rw [if_neg hp] at hm
        simp at hm
  · right
    exact h2

/-- Legal moves are pseudo-moves. -/
theorem mem_legalMoves_subset {state : Position} {m : Move}
    (h : m ∈ legalMoves state) : m ∈ genAllPseudo state :=
  (List.mem_filter.mp h).1

/-! ### Test fixtures: small concrete positions -/

/-- An empty board row. -/
def emptyRow : List Cell := [none, none, none, none, none, none, none, none, none]

/-- Both kings on their home files, nothing else. -/
def twoKingsBoard : Board :=
  [ [none, none, none, none, some ⟨.K, .w, false⟩, none, none, none, none],
    emptyRow, emptyRow, emptyRow, emptyRow, emptyRow, emptyRow, emptyRow,
    [none, none, none, none, some ⟨.K, .b, false⟩, none, none, none, none] ]

/-- Two kings, empty hands, Sente to move. -/
def twoKingsState : Position := ⟨twoKingsBoard, ⟨{}, {}⟩, .b⟩

/-- Only the Gote King: Sente has no King anywhere. -/
def noKingBoard : Board :=
  [ [none, none, none, none, some ⟨.K, .w, false⟩, none, none, none, none],
    emptyRow, emptyRow, emptyRow, emptyRow, emptyRow, emptyRow, emptyRow, emptyRow ]

/-- Two kings and one Sente Pawn in hand. -/
def pawnInHandState : Position := ⟨twoKingsBoard, ⟨{ hP := some 1 }, {}⟩, .b⟩

/-- Two kings and a Sente Pawn one step from the last rank. -/
def pawnPromoState : Position :=
  ⟨[ [none, none, none, none, some ⟨.K, .w, false⟩, none, none, none, none],
     [some ⟨.P, .b, false⟩, none, none, none, none, none, none, none, none],
     emptyRow, emptyRow, emptyRow, emptyRow, emptyRow, emptyRow,
     [none, none, none, none, some ⟨.K, .b, false⟩, none, none, none, none] ],
   ⟨{}, {}⟩, .b⟩

/-! ### The claims -/

/-- C1: every move in `legalMoves(position)` yields via `applyMove` a
successor whose board has `isInCheck(resultBoard, position.turn) = false`:
the legality filter keeps no move that leaves the mover's own king
attacked. -/
theorem c1_legal_moves_leave_no_self_check (state : Position) (m : Move)
    (h : m ∈ legalMoves state) :
    isCheck (makeMove state m).board state.turn = false := by
  have hp := (List.mem_filter.mp h).2
  simp only [] at hp
  rw [makeMove_turn, enemy_enemy] at hp
  simpa using hp

theorem c1_witness :
    Move.move 8 4 7 4 false ∈ legalMoves twoKingsState ∧
      isCheck (makeMove twoKingsState (Move.move 8 4 7 4 false)).board
        twoKingsState.turn = false :=
  ⟨by decide, c1_legal_moves_leave_no_self_check twoKingsState _ (by decide)⟩

/-- C2 counterexample: on a board with no Sente King, `isCheck` does not
fail with an invariant violation; it returns the ordinary boolean `false`
(`findKing` yields `null` and `isCheck` short-circuits). -/
theorem c2_counterexample :
    findKing noKingBoard Side.b = none ∧ isCheck noKingBoard Side.b = false := by
  constructor <;> decide

/-- C2 amended: when the queried side's King is absent from the board
(`findKing` returns `null`), `isCheck` returns `false` instead of raising
an error. -/
theorem c2_missing_king_returns_false (board : Board) (side : Side)
    (h : findKing board side = none) : isCheck board side = false := by
  unfold isCheck
  rw [h]

theorem c2_witness : isCheck noKingBoard Side.b = false :=
  c2_missing_king_returns_false noKingBoard Side.b (by decide)

/-- C3 counterexample: applying a Pawn drop with a zero hand count does not
fail; it stores the negative count `-1` in the mover's hand. -/
theorem c3_counterexample :
    handGet twoKingsState.hands Side.b PieceT.P = 0 ∧
      handGet (makeMove twoKingsState (Move.drop PieceT.P 4 4)).hands
        Side.b PieceT.P = -1 := by
  constructor <;> decide

/-- All hand counts are non-negative. -/
def handsNonneg (hs : Hands) : Prop := ∀ sd t, 0 ≤ handGet hs sd t

/-- C3 amended: `applyMove` decrements the hand count unconditionally (no
invariant violation, see the counterexample), but every drop drawn from
`legalMoves` has a non-zero hand count, so non-negative hand counts are
preserved by applying generated moves. -/
theorem c3_generated_moves_keep_hands_nonneg (state : Position) (m : Move)
    (hm : m ∈ legalMoves state) (hh : handsNonneg state.hands) :
    handsNonneg (makeMove state m).hands := by
  have hp := mem_legalMoves_subset hm
  cases m with
  | drop t r c =>
    rcases mem_genAllPseudo_cases hp with ⟨r2, c2, piece, _, _, hmem⟩ | hdrop
    · obtain ⟨piece2, tr2, tc2, prm2, _, heq2, _⟩ := mem_genPseudoMoves hmem
      simp at heq2
    · obtain ⟨t2, r2, c2, heq2, _, hcount, _, _⟩ := mem_genDrops hdrop
      obtain ⟨e1, e2, e3⟩ : t = t2 ∧ r = r2 ∧ c = c2 := by
        simpa [Move.drop.injEq] using heq2
      subst e1; subst e2; subst e3
      intro sd u
      simp only [makeMove, deepClone_eq]
      by_cases hst : sd = state.turn ∧ u = t
      · rw [hst.1, hst.2, handGet_handsSet_eq]
        have := hh state.turn t
        omega
      · rw [handGet_handsSet_ne _ _ _ _ _ _ hst]
        exact hh sd u
  | move fr fc tr tc prm =>
    intro sd u
    simp only [makeMove, deepClone_eq]
    cases hcap : getCell state.board tr tc with
    | none =>
      simp only [hcap]
      exact hh sd u
    | some cap =>
      simp only [hcap]
      by_cases hst : sd = state.turn ∧ u = (demote cap).t
      · rw [hst.1, hst.2, handGet_handsSet_eq]
        have := hh state.turn (demote cap).t
        omega
      · rw [handGet_handsSet_ne _ _ _ _ _ _ hst]
        exact hh sd u

theorem c3_witness :
    0 ≤ handGet (makeMove pawnInHandState (Move.drop PieceT.P 1 0)).hands
      Side.b PieceT.P :=
  c3_generated_moves_keep_hands_nonneg pawnInHandState (Move.drop PieceT.P 1 0)
    (by decide) (fun sd t => by cases sd <;> cases t <;> decide)
    Side.b PieceT.P

/-- C4: a generated board move (pseudo-legal or legal) of a Pawn or Lance
onto the mover's last rank, or of a Knight into the opponent's last two
ranks, always carries `promote=true`. -/
theorem c4_forced_promotion (state : Position) (m : Move) (fr fc tr tc : Int)
    (prm : Bool) (piece : Piece)
    (hm : m ∈ genAllPseudo state ∨ m ∈ legalMoves state)
    (heq : m = Move.move fr fc tr tc prm)
    (hcell : getCell state.board fr fc = some piece) :
    ((piece.t = PieceT.P ∨ piece.t = PieceT.L) →
      ((piece.p = Side.b ∧ tr = 0) ∨ (piece.p = Side.w ∧ tr = 8)) → prm = true) ∧
    (piece.t = PieceT.N →
      ((piece.p = Side.b ∧ tr ≤ 1) ∨ (piece.p = Side.w ∧ tr ≥ 7)) → prm = true) := by
  have hp : m ∈ genAllPseudo state := hm.elim id mem_legalMoves_subset
  subst heq
  rcases mem_genAllPseudo_cases hp with ⟨r2, c2, piece2, hcell2, hturn2, hmem⟩ | hdrop
  · obtain ⟨piece3, tr3, tc3, prm3, hcell3, heq3, hraw3, hforce3, _⟩ :=
      mem_genPseudoMoves hmem
    injection heq3 with e1 e2 e3 e4 e5
    subst e1; subst e2; subst e3; subst e4; subst e5
    rw [hcell] at hcell3
    have hpp : piece = piece3 := Option.some_inj.mp hcell3
    subst hpp
    constructor
    · intro htl hrank
      apply hforce3
      unfold mustPromote
      rw [if_pos htl]
      simpa using hrank
    · intro htn hrank
      apply hforce3
      unfold mustPromote
      have hne : ¬(piece.t = PieceT.P ∨ piece.t = PieceT.L) := by
        rw [htn]
        rintro (hx | hx) <;> cases hx
      rw [if_neg hne, if_pos htn]
      simpa using hrank
  · obtain ⟨t2, r3, c3, heq3, _⟩ := mem_genDrops hdrop
    simp at heq3

theorem c4_witness :
    Move.move 1 0 0 0 true ∈ genAllPseudo pawnPromoState ∧
      getCell pawnPromoState.board 1 0 = some ⟨.P, .b, false⟩ ∧
      (((PieceT.P = PieceT.P ∨ PieceT.P = PieceT.L) →
        ((Side.b = Side.b ∧ (0 : Int) = 0) ∨ (Side.b = Side.w ∧ (0 : Int) = 8)) →
          true = true) ∧
       (PieceT.P = PieceT.N →
        ((Side.b = Side.b ∧ (0 : Int) ≤ 1) ∨ (Side.b = Side.w ∧ (0 : Int) ≥ 7)) →
          true = true)) :=
  ⟨by decide, by decide,
    c4_forced_promotion pawnPromoState (Move.move 1 0 0 0 true) 1 0 0 0 true
      ⟨.P, .b, false⟩ (Or.inl (by decide)) rfl (by decide)⟩

/-- C5: `legalMoves` never contains a Pawn drop onto a file that already
holds an unpromoted Pawn of the dropping side (the nifu test
`hasUnpromotedPawnOnFile` checks unpromoted friendly pawns only). -/
theorem c5_nifu_never_in_legal_moves (state : Position) (m : Move) (r c : Int)
    (hm : m ∈ legalMoves state) (heq : m = Move.drop PieceT.P r c) :
    hasUnpromotedPawnOnFile state.board state.turn c = false := by
  subst heq
  have hp := mem_legalMoves_subset hm
  rcases mem_genAllPseudo_cases hp with ⟨r2, c2, piece, _, _, hmem⟩ | hdrop
  · obtain ⟨piece2, tr2, tc2, prm2, _, heq2, _⟩ := mem_genPseudoMoves hmem
    simp at heq2
  · obtain ⟨t2, r2, c2, heq2, _, _, _, hrestr⟩ := mem_genDrops hdrop
    obtain ⟨e1, e2, e3⟩ : PieceT.P = t2 ∧ r = r2 ∧ c = c2 := by
      simpa [Move.drop.injEq] using heq2
    subst e2; subst e3
    by_contra hbad
    rw [Bool.not_eq_false] at hbad
    exact hrestr (Or.inl ⟨e1.symm, hbad⟩)

theorem c5_witness :
    Move.drop PieceT.P 1 1 ∈ legalMoves pawnInHandState ∧
      hasUnpromotedPawnOnFile pawnInHandState.board pawnInHandState.turn 1 = false :=
  ⟨by decide,
    c5_nifu_never_in_legal_moves pawnInHandState (Move.drop PieceT.P 1 1) 1 1
      (by decide) rfl⟩

/-- C6: the initial position has exactly 30 legal moves, none of them a drop
and none with `promote=true`. -/
theorem c6_initial_position_thirty_moves :
    (legalMoves initialState).length = 30 ∧
      (legalMoves initialState).all (fun m => !m.isDrop && !m.promoteFlag) = true := by
  constructor <;> decide

/-- Spreading a piece object copies it. -/
theorem copy_eta (pc : Piece) : (⟨pc.t, pc.p, pc.pr⟩ : Piece) = pc := rfl

/-- C7: applying any generated (legal) move conserves the total piece count:
occupied board squares plus all hand counts over both sides. -/
theorem c7_apply_move_conserves_pieces (state : Position) (m : Move)
    (hWF : boardWF state.board) (hm : m ∈ legalMoves state) :
    totalCount (makeMove state m) = totalCount state := by
  have hp := mem_legalMoves_subset hm
  rcases mem_genAllPseudo_cases hp with ⟨r, c, piece, hcell, hturn, hmem⟩ | hdrop
  · obtain ⟨piece3, tr, tc, prm, hcell3, heq3, hraw3, _, _⟩ := mem_genPseudoMoves hmem
    subst heq3
    rw [hcell] at hcell3
    have hpp : piece = piece3 := Option.some_inj.mp hcell3
    subst hpp
    obtain ⟨hbnd, htarget⟩ := mem_rawDests hraw3
    have hbnd2 : inBounds r c = true :=
      inBounds_of_getCell_isSome (by rw [hcell]; rfl)
    simp only [totalCount, makeMove, deepClone_eq]
    rw [hcell]
    simp only [Option.map_some', copy_eta]
    have hMs : (if prm then some (promotePiece piece)
        else some piece).isSome = true := by
      cases prm <;> simp
    cases hcap : getCell state.board tr tc with
    | none =>
      simp only [hcap]
      have hne : ¬(r = tr ∧ c = tc) := by
        rintro ⟨he1, he2⟩
        subst he1; subst he2
        rw [hcell] at hcap
        cases hcap
      have e1 := boardCount_setCell state.board tr tc
        (if prm then some (promotePiece piece) else some piece) hWF hbnd
      rw [hcap, hMs] at e1
      simp only [Option.isSome_none, Bool.false_eq_true, if_false, if_true] at e1
      have hWF1 := boardWF_setCell state.board tr tc
        (if prm then some (promotePiece piece) else some piece) hWF
      have e2 := boardCount_setCell _ r c none hWF1 hbnd2
      rw [getCell_setCell_ne state.board tr tc r c _ hne, hcell] at e2
      simp only [Option.isSome_some, Option.isSome_none, Bool.false_eq_true,
        if_false, if_true] at e2
      omega
    | some cap =>
      simp only [hcap]
      have hne : ¬(r = tr ∧ c = tc) := by
        rintro ⟨he1, he2⟩
        subst he1; subst he2
        rw [hcell] at hcap
        have hcp : piece = cap := Option.some_inj.mp hcap.symm ▸ rfl
        rcases htarget with hnone | ⟨q, hq, hqp⟩
        · rw [hcell] at hnone; cases hnone
        · rw [hcell] at hq
          have : q = piece := Option.some_inj.mp hq.symm
          subst this
          exact hqp rfl
      have e1 := boardCount_setCell state.board tr tc
        (if prm then some (promotePiece piece) else some piece) hWF hbnd
      rw [hcap, hMs] at e1
      simp only [Option.isSome_some, if_true] at e1
      have hWF1 := boardWF_setCell state.board tr tc
        (if prm then some (promotePiece piece) else some piece) hWF
      have e2 := boardCount_setCell _ r c none hWF1 hbnd2
      rw [getCell_setCell_ne state.board tr tc r c _ hne, hcell] at e2
      simp only [Option.isSome_some, Option.isSome_none, Bool.false_eq_true,
        if_false, if_true] at e2
      rw [handTotal_handsSet]
      omega
  · obtain ⟨t, r, c, heq, hb, hcount, hempty, _⟩ := mem_genDrops hdrop
    subst heq
    simp only [totalCount, makeMove, deepClone_eq]
    have e1 := boardCount_setCell state.board r c (some ⟨t, state.turn, false⟩) hWF hb
    rw [hempty] at e1
    simp only [Option.isSome_some, Option.isSome_none, Bool.false_eq_true,
      if_false, if_true] at e1
    rw [handTotal_handsSet]
    omega

theorem c7_witness :
    boardWF twoKingsState.board ∧
      totalCount (makeMove twoKingsState (Move.move 8 4 7 4 false)) =
        totalCount twoKingsState :=
  ⟨by decide,
    c7_apply_move_conserves_pieces twoKingsState (Move.move 8 4 7 4 false)
      (by decide) (by decide)⟩

/-! ### C8: the clone-then-mutate discipline, over an explicit store -/

/-- A store of Position values: `makeMove` reads the argument, allocates the
mutated clone as a new value and returns its index; every existing entry is
untouched, mirroring `const ns = deepClone(state)` followed by writes to
`ns` only. -/
def makeMoveHeap (heap : List Position) (i : Nat) (m : Move) :
    List Position × Nat :=
  match heap[i]? with
  | none => (heap, i)
  | some s => (heap ++ [makeMove s m], heap.length)

/-- C8: applying a move produces a brand-new Position at a fresh index and
leaves every stored Position — the argument included, with every board
square, hand count and the turn field — unchanged. -/
theorem c8_apply_move_frames_input (heap : List Position) (i : Nat) (m : Move)
    (s : Position) (hi : heap[i]? = some s) (j : Nat) (hj : j < heap.length) :
    ((makeMoveHeap heap i m).1)[j]? = heap[j]? ∧
      (makeMoveHeap heap i m).2 = heap.length ∧
      ((makeMoveHeap heap i m).1)[(makeMoveHeap heap i m).2]? =
        some (makeMove s m) := by
  unfold makeMoveHeap
  rw [hi]
  refine ⟨List.getElem?_append_left hj, rfl, ?_⟩
  show (heap ++ [makeMove s m])[heap.length]? = some (makeMove s m)
  exact List.getElem?_concat_length heap (makeMove s m)

theorem c8_witness :
    [initialState][(0 : Nat)]? = some initialState ∧
      ((makeMoveHeap [initialState] 0 (Move.move 6 0 5 0 false)).1)[(0 : Nat)]? =
        some initialState :=
  ⟨rfl,
    (c8_apply_move_frames_input [initialState] 0 (Move.move 6 0 5 0 false)
        initialState rfl 0 (by decide)).1.trans rfl⟩

/-! ### C9: the promoted flag stays on eligible types only -/

/-- The `promoted` flag is set only on promotion-eligible piece types. -/
def boardInv (b : Board) : Prop :=
  ∀ (r c : Int) (pc : Piece),
    getCell b r c = some pc → pc.pr = true → PROMOTABLE pc.t = true

/-- Source `promotePiece` never changes the piece type. -/
theorem promotePiece_t (pc : Piece) : (promotePiece pc).t = pc.t := by
  unfold promotePiece
  split_ifs <;> rfl

/-- C9: `promotePiece` is the identity on promotion-ineligible pieces, so a
board move of such a piece with `promote=true` still places the unchanged
piece at the destination, and every applied move preserves the invariant
that `promoted` is set only on eligible types. -/
theorem c9_promote_identity_on_ineligible (state : Position) (fr fc tr tc : Int)
    (piece : Piece) (hWF : boardWF state.board)
    (hcell : getCell state.board fr fc = some piece)
    (hnp : PROMOTABLE piece.t = false)
    (hne : ¬(tr = fr ∧ tc = fc))
    (hbnd : inBounds tr tc = true) :
    promotePiece piece = piece ∧
      getCell (makeMove state (Move.move fr fc tr tc true)).board tr tc =
        some piece ∧
      (∀ (s2 : Position) (m2 : Move),
        boardInv s2.board → boardInv (makeMove s2 m2).board) := by
  have hid : promotePiece piece = piece := by
    unfold promotePiece
    rw [if_pos hnp]
  refine ⟨hid, ?_, ?_⟩
  · simp only [makeMove, deepClone_eq]
    rw [hcell]
    simp only [Option.map_some', copy_eta, hid, if_true]
    rw [getCell_setCell_ne _ _ _ _ _ _ hne]
    exact getCell_setCell_eq _ tr tc _ hWF hbnd
  · intro s2 m2 hinv
    cases m2 with
    | drop t r c =>
      intro r2 c2 pc2 hget hpr
      simp only [makeMove, deepClone_eq] at hget
      rcases getCell_setCell_cases s2.board r c r2 c2 (some ⟨t, s2.turn, false⟩)
        with hca | hca
      · rw [hca] at hget
        exact hinv r2 c2 pc2 hget hpr
      · rw [hca] at hget
        obtain hh := Option.some_inj.mp hget
        rw [← hh] at hpr
        cases hpr
    | move fr2 fc2 tr2 tc2 prm2 =>
      intro r2 c2 pc2 hget hpr
      cases hfrom : getCell s2.board fr2 fc2 with
      | none =>
        simp only [makeMove, deepClone_eq, hfrom, Option.map_none', ite_self] at hget
        rcases getCell_setCell_cases (setCell s2.board tr2 tc2 none) fr2 fc2 r2 c2
            none with h1 | h1
        · rw [h1] at hget
          rcases getCell_setCell_cases s2.board tr2 tc2 r2 c2 none with h2 | h2
          · rw [h2] at hget
            exact hinv r2 c2 pc2 hget hpr
          · rw [h2] at hget
            cases hget
        · rw [h1] at hget
          cases hget
      | some q =>
        simp only [makeMove, deepClone_eq, hfrom, Option.map_some', copy_eta] at hget
        rcases getCell_setCell_cases
            (setCell s2.board tr2 tc2
              (if prm2 then some (promotePiece q) else some q))
            fr2 fc2 r2 c2 none with h1 | h1
        · rw [h1] at hget
          rcases getCell_setCell_cases s2.board tr2 tc2 r2 c2
              (if prm2 then some (promotePiece q) else some q)
            with h2 | h2
          · rw [h2] at hget
            exact hinv r2 c2 pc2 hget hpr
          · rw [h2] at hget
            cases prm2 with
            | false =>
              simp only [Bool.false_eq_true, if_false] at hget
              obtain hh := Option.some_inj.mp hget
              rw [← hh] at hpr
              rw [← hh]
              exact hinv fr2 fc2 q hfrom hpr
            | true =>
              simp only [if_true] at hget
              obtain hh := Option.some_inj.mp hget
              by_cases hq : PROMOTABLE q.t = true
              · rw [← hh, promotePiece_t]
                exact hq
              · rw [Bool.not_eq_true] at hq
                have hqid : promotePiece q = q := by
                  unfold promotePiece
                  rw [if_pos hq]
                rw [hqid] at hh
                rw [← hh] at hpr
                rw [← hh]
                exact hinv fr2 fc2 q hfrom hpr
        · rw [h1] at hget
          cases hget

theorem c9_witness :
    promotePiece ⟨PieceT.K, Side.b, false⟩ = ⟨PieceT.K, Side.b, false⟩ ∧
      getCell (makeMove twoKingsState (Move.move 8 4 7 4 true)).board 7 4 =
        some ⟨PieceT.K, Side.b, false⟩ :=
  ⟨(c9_promote_identity_on_ineligible twoKingsState 8 4 7 4 ⟨PieceT.K, Side.b, false⟩
      (by decide) (by decide) (by decide) (by decide) (by decide)).1,
   (c9_promote_identity_on_ineligible twoKingsState 8 4 7 4 ⟨PieceT.K, Side.b, false⟩
      (by decide) (by decide) (by decide) (by decide) (by decide)).2.1⟩

/-! ### C10: missing hand keys behave as zero counts -/

/-- Fresh empty hand objects, as built by `initialState`. -/
def emptyHands : Hands := ⟨{}, {}⟩

/-- Hand objects storing an explicit `0` under every key. -/
def zeroHands : Hands :=
  ⟨⟨some 0, some 0, some 0, some 0, some 0, some 0, some 0, some 0⟩,
   ⟨some 0, some 0, some 0, some 0, some 0, some 0, some 0, some 0⟩⟩

/-- Two hand stores are observably equal when every `hands[p][t] || 0` read
agrees. -/
def handsEquiv (h1 h2 : Hands) : Prop :=
  ∀ sd t, handGet h1 sd t = handGet h2 sd t

theorem flatMap_congrFun {α β : Type} (l : List α) (f g : α → List β)
    (h : ∀ a ∈ l, f a = g a) : l.flatMap f = l.flatMap g := by
  induction l with
  | nil => rfl
  | cons x xs ih =>
    simp only [List.flatMap_cons]
    rw [h x (by simp), ih (fun a ha => h a (by simp [ha]))]

/-- Source `genDrops` reads the hands only through `hands[turn][t] || 0`. -/
theorem genDrops_hands_congr (s1 s2 : Position) (hb : s1.board = s2.board)
    (ht : s1.turn = s2.turn)
    (he : ∀ t, handGet s1.hands s1.turn t = handGet s2.hands s2.turn t) :
    genDrops s1 = genDrops s2 := by
  unfold genDrops
  apply flatMap_congrFun
  intro t _
  rw [he t, hb, ht]

/-- Source `makeMove` reads the hands only through `hands[p][t] || 0` and writes
single entries, so observably equal hands stay observably equal. -/
theorem makeMove_hands_congr (s1 s2 : Position) (m : Move)
    (hb : s1.board = s2.board) (ht : s1.turn = s2.turn)
    (he : handsEquiv s1.hands s2.hands) :
    (makeMove s1 m).board = (makeMove s2 m).board ∧
      (makeMove s1 m).turn = (makeMove s2 m).turn ∧
      handsEquiv (makeMove s1 m).hands (makeMove s2 m).hands := by
  cases m with
  | drop t r c =>
    simp only [makeMove, deepClone_eq]
    refine ⟨by rw [hb, ht], by rw [ht], ?_⟩
    intro sd u
    rw [ht, he s2.turn t]
    by_cases hst : sd = s2.turn ∧ u = t
    · rw [hst.1, hst.2, handGet_handsSet_eq, handGet_handsSet_eq]
    · rw [handGet_handsSet_ne _ _ _ _ _ _ hst, handGet_handsSet_ne _ _ _ _ _ _ hst]
      exact he sd u
  | move fr fc tr tc prm =>
    simp only [makeMove, deepClone_eq]
    refine ⟨by rw [hb], by rw [ht], ?_⟩
    intro sd u
    rw [hb, ht]
    cases hcap : getCell s2.board tr tc with
    | none =>
      simp only [hcap]
      exact he sd u
    | some cap =>
      simp only [hcap]
      rw [he s2.turn (demote cap).t]
      by_cases hst : sd = s2.turn ∧ u = (demote cap).t
      · rw [hst.1, hst.2, handGet_handsSet_eq, handGet_handsSet_eq]
      · rw [handGet_handsSet_ne _ _ _ _ _ _ hst, handGet_handsSet_ne _ _ _ _ _ _ hst]
        exact he sd u

/-- C10: a Position with fresh empty hand objects behaves exactly like one
whose hands map every piece type to an explicit 0: same generated drops,
same legal moves, and `applyMove` results agreeing on the board, the turn
and every hand read. -/
theorem c10_empty_hands_behave_as_zero (board : Board) (turn : Side) (m : Move) :
    genDrops ⟨board, emptyHands, turn⟩ = genDrops ⟨board, zeroHands, turn⟩ ∧
      legalMoves ⟨board, emptyHands, turn⟩ = legalMoves ⟨board, zeroHands, turn⟩ ∧
      (makeMove ⟨board, emptyHands, turn⟩ m).board =
        (makeMove ⟨board, zeroHands, turn⟩ m).board ∧
      (makeMove ⟨board, emptyHands, turn⟩ m).turn =
        (makeMove ⟨board, zeroHands, turn⟩ m).turn ∧
      handsEquiv (makeMove ⟨board, emptyHands, turn⟩ m).hands
        (makeMove ⟨board, zeroHands, turn⟩ m).hands := by
  have he : handsEquiv emptyHands zeroHands := fun sd t => by
    cases sd <;> cases t <;> rfl
  have hgd : genDrops ⟨board, emptyHands, turn⟩ = genDrops ⟨board, zeroHands, turn⟩ :=
    genDrops_hands_congr _ _ rfl rfl (fun t => he turn t)
  have hle : legalMoves ⟨board, emptyHands, turn⟩ = legalMoves ⟨board, zeroHands, turn⟩ := by
    unfold legalMoves
    have hga : genAllPseudo ⟨board, emptyHands, turn⟩ =
        genAllPseudo ⟨board, zeroHands, turn⟩ := by
      unfold genAllPseudo
      rw [hgd]
    rw [hga]
    apply List.filter_congr
    intro m2 _
    obtain ⟨hbm, htm, _⟩ := makeMove_hands_congr ⟨board, emptyHands, turn⟩
      ⟨board, zeroHands, turn⟩ m2 rfl rfl he
    simp only []
    rw [hbm, htm]
  obtain ⟨hbm, htm, hhm⟩ := makeMove_hands_congr ⟨board, emptyHands, turn⟩
    ⟨board, zeroHands, turn⟩ m rfl rfl he
  exact ⟨hgd, hle, hbm, htm, hhm⟩

end ShogiEngine
